import Mathlib

/-!
Verification of the N-body gravitational integrator
(`gravitational_nbody.jl`): velocity-Verlet stepping against Newtonian
gravity with Plummer softening, energy diagnostic, simulation driver and
CSV output model.  Machine floating point is embedded as exact real
arithmetic; integer step counters are naturals.
-/

namespace NBody

noncomputable section

/-- Gravitational constant, from `const G = 6.67430e-11`. -/
def G : ℝ := 6.67430e-11

/-- Spatial dimension, from `const NDIM = 2`. -/
def NDIM : ℕ := 2

/-- Softening length, from `const SOFTENING = 1e3`. -/
def SOFTENING : ℝ := 1e3

/-- Default time step, from `const DT = 1.0`. -/
def DT : ℝ := 1.0

/-- Default step count, from `const NSTEPS = 10_000`. -/
def NSTEPS : ℕ := 10000

/-- Default output cadence, from `const OUTPUT_EVERY = 100`. -/
def OUTPUT_EVERY : ℕ := 100

/-- One point mass, from `struct Body`: mass `m`, position `x`, velocity `v`
(vectors of length `d`). -/
structure Body (d : ℕ) where
  m : ℝ
  x : Fin d → ℝ
  v : Fin d → ℝ

/-- Softening squared, `ε2 = SOFTENING^2` as computed in `accelerations!`
and `total_energy`. -/
def ε2 : ℝ := SOFTENING ^ 2

variable {d N : ℕ}

/-- Displacement `rvec[d] = xj[d] - xi[d]` for the pair `(i, j)`. -/
def rvec (b : Fin N → Body d) (i j : Fin N) (k : Fin d) : ℝ :=
  (b j).x k - (b i).x k

/-- Squared separation `r2 += rvec[d]*rvec[d]` accumulated over dimensions
(in `total_energy` the same value is accumulated as `(xj[d]-xi[d])^2`). -/
def r2 (b : Fin N → Body d) (i j : Fin N) : ℝ :=
  ∑ k, rvec b i j k * rvec b i j k

/-- `invr3 = inv(sqrt(r2e)*r2e)` where `r2e = r2 + ε2`. -/
def invr3 (b : Fin N → Body d) (i j : Fin N) : ℝ :=
  (Real.sqrt (r2 b i j + ε2) * (r2 b i j + ε2))⁻¹

/-- The force kernel `accelerations!(a, bodies)`.  The Julia function first
zeroes the buffer `a` (`fill!(a[i], 0.0)`) and then, for each ordered pair
`i < j`, accumulates `a[i][d] += fac_i * rvec[d]` and
`a[j][d] += fac_j * rvec[d]` with `fac_i = G*mj*invr3` and
`fac_j = -G*mi*invr3`.  Because of the initial zeroing the result is
independent of the prior contents of `a`; the parameter is kept to mirror
the call shape. -/
def accelerations (a : Fin N → Fin d → ℝ) (b : Fin N → Body d) :
    Fin N → Fin d → ℝ :=
  fun i k =>
    (∑ j ∈ Finset.univ.filter (fun j => i < j),
        (G * (b j).m * invr3 b i j) * rvec b i j k)
    + ∑ j ∈ Finset.univ.filter (fun j => j < i),
        (-(G * (b j).m * invr3 b j i)) * rvec b j i k

/-- Kinetic part of `total_energy`: `K = Σ 0.5*m*vi2`, `vi2 = Σ v[d]^2`. -/
def kinetic (b : Fin N → Body d) : ℝ :=
  ∑ i, 0.5 * (b i).m * ∑ k, (b i).v k ^ 2

/-- Potential part of `total_energy`: for each pair `i < j`,
`U -= G*mi*mj / sqrt(r2 + ε2)`. -/
def potential (b : Fin N → Body d) : ℝ :=
  ∑ i, ∑ j ∈ Finset.univ.filter (fun j => i < j),
    -(G * (b i).m * (b j).m / Real.sqrt (r2 b i j + ε2))

/-- `total_energy(bodies) = K + U`. -/
def total_energy (b : Fin N → Body d) : ℝ :=
  kinetic b + potential b

/-- First loop of `vv_step!`: for every body,
`x[d] += v[d]*dt + 0.5*a[d]*dt*dt` and `v[d] += 0.5*a[d]*dt`. -/
def drift (b : Fin N → Body d) (a : Fin N → Fin d → ℝ) (dt : ℝ) :
    Fin N → Body d :=
  fun i =>
    { m := (b i).m
      x := fun k => (b i).x k + (b i).v k * dt + 0.5 * a i k * dt * dt
      v := fun k => (b i).v k + 0.5 * a i k * dt }

/-- One velocity-Verlet step `vv_step!(bodies, a, dt)`: position update and
half-kick, recomputation of the acceleration buffer at the new positions,
then the second half-kick.  Returns the mutated bodies and the mutated
buffer. -/
def vv_step (b : Fin N → Body d) (a : Fin N → Fin d → ℝ) (dt : ℝ) :
    (Fin N → Body d) × (Fin N → Fin d → ℝ) :=
  let b1 := drift b a dt
  let a1 := accelerations a b1
  (fun i => { m := (b1 i).m, x := (b1 i).x,
              v := fun k => (b1 i).v k + 0.5 * a1 i k * dt }, a1)

/-- `n` sequential `vv_step!` calls from bodies `b` and buffer `a`. -/
def stepIter (b : Fin N → Body d) (a : Fin N → Fin d → ℝ) (dt : ℝ) :
    ℕ → (Fin N → Body d) × (Fin N → Fin d → ℝ)
  | 0 => (b, a)
  | n + 1 => vv_step (stepIter b a dt n).1 (stepIter b a dt n).2 dt

/-- Flattened positions `reduce(vcat, (b.x for b in bodies))`: all
coordinates of body 1, then of body 2, and so on. -/
def flatPositions (b : Fin N → Body d) : List ℝ :=
  ((List.finRange N).map (fun i => (List.finRange d).map (fun k => (b i).x k))).flatten

/-- Return value of `simulate!`: the recorded times, energies and flattened
position samples, plus the final (mutated-in-place) bodies and buffer. -/
structure SimOut (N d : ℕ) where
  times : List ℝ
  energies : List ℝ
  samples : List (List ℝ)
  final : (Fin N → Body d) × (Fin N → Fin d → ℝ)

/-- The step loop of `simulate!`: `rem` remaining iterations, `k` the
current value of the loop counter, `p` the bodies and acceleration buffer,
`t` the accumulated time.  Each iteration performs one `vv_step!`,
advances `t += dt` and records a sample when `k % output_every == 0`. -/
def simAux (dt : ℝ) (K : ℕ) :
    ℕ → ℕ → (Fin N → Body d) × (Fin N → Fin d → ℝ) → ℝ → SimOut N d
  | 0, _, p, _ => ⟨[], [], [], p⟩
  | rem + 1, k, p, t =>
      let p1 := vv_step p.1 p.2 dt
      let t1 := t + dt
      let rest := simAux dt K rem (k + 1) p1 t1
      if k % K = 0 then
        ⟨t1 :: rest.times, total_energy p1.1 :: rest.energies,
         flatPositions p1.1 :: rest.samples, rest.final⟩
      else rest

/-- The driver `simulate!(bodies; dt, nsteps, output_every)`: allocates a
zero acceleration buffer, fills it once with `accelerations!`, records the
initial sample at `t = 0`, then runs the step loop with `k` from `1` to
`nsteps`. -/
def simulate (b : Fin N → Body d) (dt : ℝ) (nsteps output_every : ℕ) :
    SimOut N d :=
  let a := accelerations (fun _ _ => 0) b
  let res := simAux dt output_every nsteps 1 (b, a) 0
  ⟨0 :: res.times, total_energy b :: res.energies,
   flatPositions b :: res.samples, res.final⟩

/-- Mass `m1 = 5.972e24` in `two_body_demo`. -/
def demo_m1 : ℝ := 5.972e24

/-- Mass `m2 = 7.348e22` in `two_body_demo`. -/
def demo_m2 : ℝ := 7.348e22

/-- Separation `r = 4.0e7` in `two_body_demo`. -/
def demo_r : ℝ := 4.0e7

/-- Circular relative speed `v = sqrt(G*(m1+m2)/r)` in `two_body_demo`. -/
def demo_v : ℝ := Real.sqrt (G * (demo_m1 + demo_m2) / demo_r)

/-- `two_body_demo()`: two bodies on the x-axis with velocities along y. -/
def two_body_demo : Fin 2 → Body 2 := fun i =>
  if i.val = 0 then
    { m := demo_m1
      x := fun k => if k.val = 0 then -(demo_m2 / (demo_m1 + demo_m2)) * demo_r else 0
      v := fun k => if k.val = 0 then 0 else -(demo_m2 / (demo_m1 + demo_m2)) * demo_v }
  else
    { m := demo_m2
      x := fun k => if k.val = 0 then (demo_m1 / (demo_m1 + demo_m2)) * demo_r else 0
      v := fun k => if k.val = 0 then 0 else (demo_m1 / (demo_m1 + demo_m2)) * demo_v }

/-- One formatted CSV field, as produced by the `@printf` calls in `main`:
`fixed p x` is the `f`-conversion of `x` with `p` digits after the decimal
point; `sci p x` is the `e`-conversion of `x` with `p` digits after the
decimal point. -/
inductive FmtField where
  | fixed (prec : ℕ) (x : ℝ)
  | sci (prec : ℕ) (x : ℝ)

/-- Count of significant digits in the printed mantissa of a field.  The
`e`-conversion of `@printf` prints the mantissa as exactly one digit, a
decimal point, and `prec` fraction digits, so it carries `prec + 1`
significant digits; the `f`-conversion has no fixed significant-digit
count (it depends on the magnitude), modelled as `none`. -/
def FmtField.sigDigitCount : FmtField → Option ℕ
  | .sci p _ => some (p + 1)
  | .fixed _ _ => none

/-- The driver output `simulate!(bodies)` in `main` with the two-body demo
initial conditions and the default `dt`, `nsteps`, `output_every`. -/
def mainResult : SimOut 2 2 := simulate two_body_demo DT NSTEPS OUTPUT_EVERY

/-- One row of `energies.csv`, from `@printf(io, "%.6f,%.10e\n", t, E)`. -/
def energiesRow (t E : ℝ) : List FmtField :=
  [FmtField.fixed 6 t, FmtField.sci 10 E]

/-- The `energies.csv` file: header `"t,E"` and one row per recorded
sample. -/
def energiesFile : String × List (List FmtField) :=
  ("t,E", (mainResult.times.zip mainResult.energies).map (fun p => energiesRow p.1 p.2))

/-- The `positions.csv` header: `"t,"` followed by `x$(i)_$(d)` for each
body index `i` and dimension `d`, joined with commas. -/
def positionsHeader (n nd : ℕ) : String :=
  "t," ++ String.intercalate ","
    (((List.range n).map (fun i =>
        (List.range nd).map (fun k =>
          "x" ++ toString (i + 1) ++ "_" ++ toString (k + 1)))).flatten)

/-- One row of `positions.csv`: `@printf(io, "%.6f", t)` followed by
`@printf(io, ",%.10e", v)` for every flattened position component. -/
def positionsRow (t : ℝ) (ps : List ℝ) : List FmtField :=
  FmtField.fixed 6 t :: ps.map (FmtField.sci 10)

/-- The `positions.csv` file: generated header and one row per recorded
sample. -/
def positionsFile : String × List (List FmtField) :=
  (positionsHeader 2 NDIM,
   (mainResult.times.zip mainResult.samples).map (fun p => positionsRow p.1 p.2))

/-! ### Basic facts about the softened kernel -/

lemma ε2_pos : 0 < ε2 := by norm_num [ε2, SOFTENING]

lemma r2_nonneg (b : Fin N → Body d) (i j : Fin N) : 0 ≤ r2 b i j :=
  Finset.sum_nonneg fun k _ => mul_self_nonneg _

lemma r2e_pos (b : Fin N → Body d) (i j : Fin N) : 0 < r2 b i j + ε2 :=
  add_pos_of_nonneg_of_pos (r2_nonneg b i j) ε2_pos

lemma rvec_swap (b : Fin N → Body d) (i j : Fin N) (k : Fin d) :
    rvec b j i k = -rvec b i j k := by
  simp [rvec]

lemma r2_symm (b : Fin N → Body d) (i j : Fin N) : r2 b j i = r2 b i j := by
  unfold r2
  refine Finset.sum_congr rfl fun k _ => ?_
  rw [rvec_swap]
  ring

lemma invr3_symm (b : Fin N → Body d) (i j : Fin N) :
    invr3 b j i = invr3 b i j := by
  unfold invr3
  rw [r2_symm]

lemma r2_eq_sq (b : Fin N → Body d) (i j : Fin N) :
    r2 b i j = ∑ l, ((b j).x l - (b i).x l) ^ 2 := by
  unfold r2 rvec
  exact Finset.sum_congr rfl fun l _ => by ring

/-- The pair loop of `accelerations!` produces, for each body `i`, the sum
over all other bodies `j` of `G * mj * invr3 * rvec`. -/
lemma accelerations_eq_sum_ne (a : Fin N → Fin d → ℝ) (b : Fin N → Body d)
    (i : Fin N) (k : Fin d) :
    accelerations a b i k
      = ∑ j ∈ Finset.univ.filter (fun j => j ≠ i),
          (G * (b j).m * invr3 b i j) * rvec b i j k := by
  have hsplit : (Finset.univ.filter (fun j : Fin N => j ≠ i))
      = Finset.univ.filter (fun j => i < j) ∪ Finset.univ.filter (fun j => j < i) := by
    ext j
    simp only [Finset.mem_filter, Finset.mem_union, Finset.mem_univ, true_and]
    constructor
    · intro h
      exact lt_or_gt_of_ne (Ne.symm h)
    · intro h
      rcases h with h | h
      · exact ne_of_gt h
      · exact ne_of_lt h
  have hdisj : Disjoint (Finset.univ.filter (fun j : Fin N => i < j))
      (Finset.univ.filter (fun j : Fin N => j < i)) := by
    rw [Finset.disjoint_filter]
    intro j _ h1 h2
    exact absurd (lt_trans h1 h2) (lt_irrefl i)
  rw [hsplit, Finset.sum_union hdisj]
  unfold accelerations
  congr 1
  refine Finset.sum_congr rfl fun j _ => ?_
  rw [invr3_symm, rvec_swap]
  ring

/-- Newton's third law at the level of the mass-weighted kernel output:
the total of `m_i * a_i` vanishes in each component. -/
lemma sum_mass_accelerations (a : Fin N → Fin d → ℝ) (b : Fin N → Body d)
    (k : Fin d) :
    ∑ i, (b i).m * accelerations a b i k = 0 := by
  have hrw : ∀ i : Fin N, (b i).m * accelerations a b i k
      = ∑ j, (if j ≠ i then (b i).m * ((G * (b j).m * invr3 b i j) * rvec b i j k) else 0) := by
    intro i
    rw [accelerations_eq_sum_ne, Finset.mul_sum, Finset.sum_filter]
  set F : Fin N → Fin N → ℝ := fun i j =>
    if j ≠ i then (b i).m * ((G * (b j).m * invr3 b i j) * rvec b i j k) else 0 with hF
  have hanti : ∀ i j, F j i = -F i j := by
    intro i j
    by_cases hij : j = i
    · subst hij; simp [hF]
    · have hji : ¬i = j := fun h => hij h.symm
      simp only [hF, if_pos hij, if_pos hji, ne_eq, not_false_iff]
      rw [invr3_symm, rvec_swap]
      ring
  have hS : ∑ i, ∑ j, F i j = -∑ i, ∑ j, F i j := by
    have h1 : (∑ i, ∑ j, F i j) = ∑ i, ∑ j, F j i := Finset.sum_comm
    have h2 : (∑ i, ∑ j, F j i) = ∑ i, ∑ j, -F i j :=
      Finset.sum_congr rfl fun i _ => Finset.sum_congr rfl fun j _ => hanti i j
    have h3 : (∑ i, ∑ j, -F i j) = -∑ i, ∑ j, F i j := by
      rw [show (∑ i, ∑ j, -F i j) = ∑ i, -∑ j, F i j from
        Finset.sum_congr rfl fun i _ => Finset.sum_neg_distrib, Finset.sum_neg_distrib]
    exact h1.trans (h2.trans h3)
  have hzero : ∑ i, ∑ j, F i j = 0 := by linarith
  calc ∑ i, (b i).m * accelerations a b i k = ∑ i, ∑ j, F i j :=
        Finset.sum_congr rfl fun i _ => hrw i
    _ = 0 := hzero

/-- The kernel output depends only on the masses and positions of the
bodies, not on their velocities or on the prior buffer contents. -/
lemma accelerations_congr (a a' : Fin N → Fin d → ℝ) (b c : Fin N → Body d)
    (hm : ∀ i, (c i).m = (b i).m) (hx : ∀ i, (c i).x = (b i).x) :
    accelerations a' c = accelerations a b := by
  funext i k
  unfold accelerations invr3 r2 rvec
  simp only [hm, hx]

lemma rpow_three_halves (x : ℝ) (hx : 0 < x) :
    x ^ ((3 : ℝ) / 2) = Real.sqrt x * x := by
  have h : ((3 : ℝ) / 2) = 1 / 2 + 1 := by norm_num
  rw [h, Real.rpow_add hx, Real.rpow_one, ← Real.sqrt_eq_rpow]

/-- Sum over ordered pairs `p.1 < p.2` as iterated sums, matching the
nested `for i in 1:N-1, j in i+1:N` loops. -/
lemma pair_sum {M : Type} [AddCommMonoid M] (f : Fin N × Fin N → M) :
    (∑ p ∈ Finset.univ.filter (fun p : Fin N × Fin N => p.1 < p.2), f p)
      = ∑ i, ∑ j ∈ Finset.univ.filter (fun j => i < j), f (i, j) := by
  rw [Finset.sum_filter, Fintype.sum_prod_type]
  exact Finset.sum_congr rfl fun i _ => (Finset.sum_filter _ _).symm

/-! ### Claim theorems -/

/-- Claim C8: for every body array, including zero or negative masses and
coincident positions, the softened squared separation `r2 + ε2` is
strictly positive, so neither the force-kernel denominator
`sqrt(r2+ε2)*(r2+ε2)` nor the potential denominator `sqrt(r2+ε2)` is
zero: no division by zero can occur. -/
theorem softened_denominator_pos (b : Fin N → Body d) (i j : Fin N) :
    0 < r2 b i j + ε2 ∧
    Real.sqrt (r2 b i j + ε2) * (r2 b i j + ε2) ≠ 0 ∧
    Real.sqrt (r2 b i j + ε2) ≠ 0 := by
  have h := r2e_pos b i j
  have hs : 0 < Real.sqrt (r2 b i j + ε2) := Real.sqrt_pos.mpr h
  exact ⟨h, ne_of_gt (mul_pos hs h), ne_of_gt hs⟩

/-- Claim C1: one `vv_step!` call updates every position to
`x + v*dt + 0.5*a_n*dt²` and every velocity by the two half-kicks
`0.5*a_n*dt` and `0.5*a_{n+1}*dt`, where the returned buffer `a_{n+1}` is
the force kernel evaluated at the updated positions — so on return the
buffer is consistent with the returned bodies, the precondition of the
next step. -/
theorem vv_step_velocity_verlet (b : Fin N → Body d)
    (a : Fin N → Fin d → ℝ) (dt : ℝ) :
    (∀ i k, ((vv_step b a dt).1 i).x k
        = (b i).x k + (b i).v k * dt + 0.5 * a i k * dt * dt) ∧
    (∀ i k, ((vv_step b a dt).1 i).v k
        = ((b i).v k + 0.5 * a i k * dt) + 0.5 * (vv_step b a dt).2 i k * dt) ∧
    (vv_step b a dt).2 = accelerations a (drift b a dt) ∧
    (vv_step b a dt).2 = accelerations a (vv_step b a dt).1 := by
  refine ⟨fun i k => rfl, fun i k => rfl, rfl, ?_⟩
  exact (accelerations_congr a a (drift b a dt) (vv_step b a dt).1
    (fun i => rfl) (fun i => rfl)).symm

/-- Claim C2: the force kernel overwrites the buffer — its output does not
depend on the buffer argument at all — and every output component equals
the Plummer-softened Newtonian sum
`Σ_{j ≠ i} G * m_j * (x_j - x_i) / (|x_j - x_i|² + ε²)^(3/2)`. -/
theorem accelerations_newtonian_sum (a a' : Fin N → Fin d → ℝ)
    (b : Fin N → Body d) (i : Fin N) (k : Fin d) :
    accelerations a b = accelerations a' b ∧
    accelerations a b i k
      = ∑ j ∈ Finset.univ.filter (fun j => j ≠ i),
          G * (b j).m * ((b j).x k - (b i).x k)
            / ((∑ l, ((b j).x l - (b i).x l) ^ 2) + ε2) ^ ((3 : ℝ) / 2) := by
  refine ⟨rfl, ?_⟩
  rw [accelerations_eq_sum_ne]
  refine Finset.sum_congr rfl fun j _ => ?_
  rw [← r2_eq_sq, rpow_three_halves _ (r2e_pos b i j)]
  unfold invr3 rvec
  rw [div_eq_mul_inv]
  ring

/-- Claim C3: the energy diagnostic returns `K + U` with
`K = Σ_i 0.5 m_i |v_i|²` and `U = -Σ_{i<j} G m_i m_j / sqrt(|x_j-x_i|²+ε²)`,
using the same softening constant `ε2` as the force kernel. -/
theorem total_energy_kinetic_potential (b : Fin N → Body d) :
    total_energy b
      = (∑ i, 0.5 * (b i).m * ∑ k, (b i).v k ^ 2)
        + ∑ p ∈ Finset.univ.filter (fun p : Fin N × Fin N => p.1 < p.2),
            -(G * (b p.1).m * (b p.2).m
              / Real.sqrt ((∑ l, ((b p.2).x l - (b p.1).x l) ^ 2) + ε2)) := by
  unfold total_energy
  congr 1
  rw [pair_sum]
  unfold potential
  dsimp only
  refine Finset.sum_congr rfl fun i _ => Finset.sum_congr rfl fun j _ => ?_
  rw [r2_eq_sq]

/-- Claim C7: for a two-body system the kernel output satisfies
`m_1 * a_1 = -(m_2 * a_2)` component-wise, exactly. -/
theorem two_body_action_reaction (b : Fin 2 → Body d)
    (a : Fin 2 → Fin d → ℝ) (k : Fin d) :
    (b 0).m * accelerations a b 0 k = -((b 1).m * accelerations a b 1 k) := by
  have h01 : (Finset.univ.filter (fun j : Fin 2 => (0 : Fin 2) < j)) = {1} := by decide
  have h02 : (Finset.univ.filter (fun j : Fin 2 => j < (0 : Fin 2))) = ∅ := by decide
  have h11 : (Finset.univ.filter (fun j : Fin 2 => (1 : Fin 2) < j)) = ∅ := by decide
  have h12 : (Finset.univ.filter (fun j : Fin 2 => j < (1 : Fin 2))) = {0} := by decide
  unfold accelerations
  rw [h01, h02, h11, h12]
  rw [Finset.sum_singleton, Finset.sum_singleton, Finset.sum_empty, Finset.sum_empty]
  ring

/-! ### Momentum conservation -/

/-- The kernel ignores its buffer argument entirely. -/
lemma accelerations_buffer_irrel (a a' : Fin N → Fin d → ℝ)
    (b : Fin N → Body d) : accelerations a b = accelerations a' b := rfl

/-- After a step the returned buffer is the kernel output at the returned
bodies (the second half-kick changes only velocities). -/
lemma step_buffer (b : Fin N → Body d) (a : Fin N → Fin d → ℝ) (dt : ℝ) :
    (vv_step b a dt).2 = accelerations a (vv_step b a dt).1 :=
  (accelerations_congr a a (drift b a dt) (vv_step b a dt).1
    (fun i => rfl) (fun i => rfl)).symm

/-- Along the iteration started from a kernel-consistent buffer, the buffer
stays the kernel output at the current bodies. -/
lemma stepIter_buffer (b : Fin N → Body d) (a0 : Fin N → Fin d → ℝ)
    (dt : ℝ) : ∀ n, (stepIter b (accelerations a0 b) dt n).2
      = accelerations a0 (stepIter b (accelerations a0 b) dt n).1
  | 0 => rfl
  | n + 1 =>
      step_buffer (stepIter b (accelerations a0 b) dt n).1
        (stepIter b (accelerations a0 b) dt n).2 dt

/-- One step started from a kernel-consistent buffer preserves every
component of total linear momentum exactly. -/
lemma momentum_vv_step (b : Fin N → Body d) (a0 : Fin N → Fin d → ℝ)
    (dt : ℝ) (k : Fin d) :
    ∑ i, ((vv_step b (accelerations a0 b) dt).1 i).m
          * ((vv_step b (accelerations a0 b) dt).1 i).v k
      = ∑ i, (b i).m * (b i).v k := by
  have hexp : ∀ i : Fin N,
      ((vv_step b (accelerations a0 b) dt).1 i).m
          * ((vv_step b (accelerations a0 b) dt).1 i).v k
        = (b i).m * (b i).v k
          + 0.5 * dt * ((b i).m * accelerations a0 b i k)
          + 0.5 * dt * ((b i).m
              * accelerations (accelerations a0 b)
                  (drift b (accelerations a0 b) dt) i k) := by
    intro i
    show (b i).m * (((b i).v k + 0.5 * accelerations a0 b i k * dt)
        + 0.5 * accelerations (accelerations a0 b)
            (drift b (accelerations a0 b) dt) i k * dt) = _
    ring
  rw [Finset.sum_congr rfl fun i _ => hexp i]
  rw [Finset.sum_add_distrib, Finset.sum_add_distrib,
      ← Finset.mul_sum, ← Finset.mul_sum]
  rw [sum_mass_accelerations a0 b k]
  rw [show (∑ i, (b i).m
        * accelerations (accelerations a0 b)
            (drift b (accelerations a0 b) dt) i k) = 0 from
    sum_mass_accelerations (accelerations a0 b)
      (drift b (accelerations a0 b) dt) k]
  ring

/-- Claim C4: starting from a buffer that matches the kernel output at the
current positions, every component of `Σ m_i v_i` is invariant across any
number of sequential `vv_step!` calls (exactly, in real arithmetic). -/
theorem momentum_conserved (b : Fin N → Body d)
    (a0 : Fin N → Fin d → ℝ) (dt : ℝ) (n : ℕ) (k : Fin d) :
    ∑ i, ((stepIter b (accelerations a0 b) dt n).1 i).m
          * ((stepIter b (accelerations a0 b) dt n).1 i).v k
      = ∑ i, (b i).m * (b i).v k := by
  induction n with
  | zero => rfl
  | succ n ih =>
      have hbuf := stepIter_buffer b a0 dt n
      have h1 : stepIter b (accelerations a0 b) dt (n + 1)
          = vv_step (stepIter b (accelerations a0 b) dt n).1
              (accelerations a0 (stepIter b (accelerations a0 b) dt n).1) dt := by
        rw [← hbuf]
        rfl
      rw [h1, momentum_vv_step (stepIter b (accelerations a0 b) dt n).1 a0 dt k, ih]

/-! ### Degenerate small systems -/

lemma fin_eq_of_le_one (hN : N ≤ 1) (i j : Fin N) : i = j := by
  have hi := i.isLt
  have hj := j.isLt
  apply Fin.ext
  omega

lemma accel_small (hN : N ≤ 1) (a : Fin N → Fin d → ℝ)
    (b : Fin N → Body d) (i : Fin N) (k : Fin d) :
    accelerations a b i k = 0 := by
  have h1 : Finset.univ.filter (fun j : Fin N => i < j) = ∅ := by
    refine Finset.filter_eq_empty_iff.mpr fun j _ => ?_
    rw [fin_eq_of_le_one hN i j]
    exact lt_irrefl j
  have h2 : Finset.univ.filter (fun j : Fin N => j < i) = ∅ := by
    refine Finset.filter_eq_empty_iff.mpr fun j _ => ?_
    rw [fin_eq_of_le_one hN i j]
    exact lt_irrefl j
  unfold accelerations
  rw [h1, h2]
  simp

lemma potential_small (hN : N ≤ 1) (b : Fin N → Body d) :
    potential b = 0 := by
  unfold potential
  refine Finset.sum_eq_zero fun i _ => ?_
  have h1 : Finset.univ.filter (fun j : Fin N => i < j) = ∅ := by
    refine Finset.filter_eq_empty_iff.mpr fun j _ => ?_
    rw [fin_eq_of_le_one hN i j]
    exact lt_irrefl j
  rw [h1]
  simp

/-- Claim C10: with fewer than two bodies the force kernel returns an
all-zero buffer and the energy diagnostic returns the kinetic term alone;
consequently one step on a single body translates its position by
`velocity * dt` and leaves the velocity unchanged. -/
theorem small_system_dynamics (d N : ℕ) (hN : N ≤ 1) :
    (∀ (a : Fin N → Fin d → ℝ) (b : Fin N → Body d) (i : Fin N) (k : Fin d),
        accelerations a b i k = 0) ∧
    (∀ b : Fin N → Body d, total_energy b = kinetic b) ∧
    (∀ (c : Fin 1 → Body d) (a0 : Fin 1 → Fin d → ℝ) (dt : ℝ) (k : Fin d),
        ((vv_step c (accelerations a0 c) dt).1 0).x k
            = (c 0).x k + (c 0).v k * dt ∧
        ((vv_step c (accelerations a0 c) dt).1 0).v k = (c 0).v k) := by
  refine ⟨fun a b i k => accel_small hN a b i k,
    fun b => by unfold total_energy; rw [potential_small hN, add_zero], ?_⟩
  intro c a0 dt k
  constructor
  · show (c 0).x k + (c 0).v k * dt
        + 0.5 * accelerations a0 c 0 k * dt * dt = _
    rw [accel_small (le_refl 1)]
    ring
  · show ((c 0).v k + 0.5 * accelerations a0 c 0 k * dt)
        + 0.5 * accelerations (accelerations a0 c)
            (drift c (accelerations a0 c) dt) 0 k * dt = _
    rw [accel_small (le_refl 1), accel_small (le_refl 1)]
    ring

/-- Witness for C10 at a concrete one-body system in two dimensions. -/
theorem small_system_dynamics_witness :
    accelerations (fun _ _ => (0 : ℝ))
        (fun _ : Fin 1 => Body.mk (d := 2) 1 (fun _ => 0) (fun _ => 0)) 0 0 = 0 ∧
    total_energy (fun _ : Fin 1 => Body.mk (d := 2) 1 (fun _ => 0) (fun _ => 0))
      = kinetic (fun _ : Fin 1 => Body.mk (d := 2) 1 (fun _ => 0) (fun _ => 0)) :=
  ⟨(small_system_dynamics 2 1 (by decide)).1 _ _ 0 0,
   (small_system_dynamics 2 1 (by decide)).2.1 _⟩

/-! ### The simulation driver -/

lemma stepIter_shift (b : Fin N → Body d) (a : Fin N → Fin d → ℝ)
    (dt : ℝ) (n : ℕ) :
    stepIter b a dt (n + 1)
      = stepIter (vv_step b a dt).1 (vv_step b a dt).2 dt n := by
  induction n with
  | zero => rfl
  | succ n ih =>
      have h : stepIter b a dt (n + 1 + 1)
          = vv_step (stepIter b a dt (n + 1)).1 (stepIter b a dt (n + 1)).2 dt := rfl
      rw [h, ih]
      rfl

lemma filter_map_succ (p : ℕ → Bool) (l : List ℕ) :
    (l.map Nat.succ).filter p = (l.filter (fun n => p (n + 1))).map Nat.succ := by
  induction l with
  | nil => rfl
  | cons a l ih =>
      simp only [List.map_cons, List.filter_cons]
      by_cases h : p (a + 1) = true
      · simp only [Nat.succ_eq_add_one, h, if_true, List.map_cons, ih]
      · have h2 : p (a + 1) = false := by
          cases hpa : p (a + 1)
          · rfl
          · exact absurd hpa h
        simp only [Nat.succ_eq_add_one, h2, Bool.false_eq_true, if_false, ih]

/-- Peeling the first loop iteration off the list of recorded offsets. -/
lemma rec_filter_succ (K k rem : ℕ) :
    (List.range (rem + 1)).filter (fun o => decide ((k + o) % K = 0))
      = (if k % K = 0 then [0] else [])
        ++ ((List.range rem).filter
              (fun o => decide ((k + 1 + o) % K = 0))).map Nat.succ := by
  rw [List.range_succ_eq_map, List.filter_cons]
  have hpred : ((List.range rem).map Nat.succ).filter
        (fun o => decide ((k + o) % K = 0))
      = ((List.range rem).filter
          (fun o => decide ((k + 1 + o) % K = 0))).map Nat.succ := by
    rw [filter_map_succ]
    congr 1
    refine List.filter_congr fun o _ => ?_
    have harith : k + (o + 1) = k + 1 + o := by omega
    rw [harith]
  rw [hpred]
  by_cases h : k % K = 0
  · simp [h]
  · simp [h]

/-- Exact description of the `simulate!` step loop: starting at loop
counter `k` with state `p` and clock `t`, with `rem` iterations left, the
recorded offsets are those `o < rem` with `(k+o) % K = 0`, recorded at
time `t + (o+1)*dt` in the state reached after `o+1` further steps, and
the final state is the `rem`-fold step iterate. -/
lemma simAux_eq (dt : ℝ) (K : ℕ) :
    ∀ (rem k : ℕ) (p : (Fin N → Body d) × (Fin N → Fin d → ℝ)) (t : ℝ),
    simAux dt K rem k p t =
      ⟨((List.range rem).filter (fun o => decide ((k + o) % K = 0))).map
          (fun o : ℕ => t + ((o : ℝ) + 1) * dt),
       ((List.range rem).filter (fun o => decide ((k + o) % K = 0))).map
          (fun o : ℕ => total_energy (stepIter p.1 p.2 dt (o + 1)).1),
       ((List.range rem).filter (fun o => decide ((k + o) % K = 0))).map
          (fun o : ℕ => flatPositions (stepIter p.1 p.2 dt (o + 1)).1),
       stepIter p.1 p.2 dt rem⟩ := by
  intro rem
  induction rem with
  | zero => intro k p t; rfl
  | succ rem ih =>
      intro k p t
      simp only [simAux]
      rw [ih (k + 1) (vv_step p.1 p.2 dt) (t + dt)]
      simp only [rec_filter_succ K k rem, List.map_append, List.map_map]
      by_cases h : k % K = 0
      · simp only [if_pos h, List.map_cons, List.map_nil, List.singleton_append]
        rw [SimOut.mk.injEq]
        refine ⟨?_, ?_, ?_, ?_⟩
        · congr 1
          · norm_num
          · refine List.map_congr_left fun o _ => ?_
            show (t + dt) + ((o : ℝ) + 1) * dt = t + (((o + 1 : ℕ) : ℝ) + 1) * dt
            push_cast
            ring
        · congr 1
          refine List.map_congr_left fun o _ => ?_
          show total_energy (stepIter (vv_step p.1 p.2 dt).1
              (vv_step p.1 p.2 dt).2 dt (o + 1)).1
            = total_energy (stepIter p.1 p.2 dt (o + 1 + 1)).1
          rw [← stepIter_shift]
        · congr 1
          refine List.map_congr_left fun o _ => ?_
          show flatPositions (stepIter (vv_step p.1 p.2 dt).1
              (vv_step p.1 p.2 dt).2 dt (o + 1)).1
            = flatPositions (stepIter p.1 p.2 dt (o + 1 + 1)).1
          rw [← stepIter_shift]
        · rw [← stepIter_shift]
      · simp only [if_neg h, List.nil_append]
        rw [SimOut.mk.injEq]
        refine ⟨?_, ?_, ?_, ?_⟩
        · refine List.map_congr_left fun o _ => ?_
          show (t + dt) + ((o : ℝ) + 1) * dt = t + (((o + 1 : ℕ) : ℝ) + 1) * dt
          push_cast
          ring
        · refine List.map_congr_left fun o _ => ?_
          show total_energy (stepIter (vv_step p.1 p.2 dt).1
              (vv_step p.1 p.2 dt).2 dt (o + 1)).1
            = total_energy (stepIter p.1 p.2 dt (o + 1 + 1)).1
          rw [← stepIter_shift]
        · refine List.map_congr_left fun o _ => ?_
          show flatPositions (stepIter (vv_step p.1 p.2 dt).1
              (vv_step p.1 p.2 dt).2 dt (o + 1)).1
            = flatPositions (stepIter p.1 p.2 dt (o + 1 + 1)).1
          rw [← stepIter_shift]
        · rw [← stepIter_shift]

/-- The loop counters `k = o + 1 ∈ [1, n]` with `k % K = 0` are exactly the
positive multiples of `K` up to `n`. -/
lemma filtered_succ_multiples (K n : ℕ) (hK : 0 < K) :
    ((List.range n).filter (fun o => decide ((1 + o) % K = 0))).map Nat.succ
      = (List.range (n / K)).map (fun i => (i + 1) * K) := by
  induction n with
  | zero => simp
  | succ n ih =>
      rw [List.range_succ, List.filter_append, List.map_append, ih]
      by_cases h : K ∣ (n + 1)
      · have hmod : (1 + n) % K = 0 := by
          rw [Nat.add_comm]
          exact Nat.dvd_iff_mod_eq_zero.mp h
        have hdiv : (n + 1) / K = n / K + 1 := by
          rw [Nat.succ_div, if_pos h]
        have hval : (n / K + 1) * K = n + 1 := by
          rw [← hdiv]
          exact Nat.div_mul_cancel h
        rw [hdiv, List.range_succ, List.map_append]
        congr 1
        simp [hmod, hval]
      · have hmod : ¬((1 + n) % K = 0) := by
          rw [Nat.add_comm]
          exact fun hc => h (Nat.dvd_iff_mod_eq_zero.mpr hc)
        have hdiv : (n + 1) / K = n / K := by
          rw [Nat.succ_div, if_neg h, Nat.add_zero]
        rw [hdiv]
        simp [hmod]

/-- Recorded values (initial record consed onto the loop records) indexed
by the multiples of the cadence. -/
lemma cons_map_multiples {α : Type} (K n : ℕ) (hK : 0 < K) (f : ℕ → α) :
    f 0 :: ((List.range n).filter (fun o => decide ((1 + o) % K = 0))).map
        (fun o => f (o + 1))
      = (List.range (n / K + 1)).map (fun i => f (i * K)) := by
  rw [List.range_succ_eq_map, List.map_cons]
  congr 1
  · rw [Nat.zero_mul]
  · have h1 : ((List.range n).filter (fun o => decide ((1 + o) % K = 0))).map
        (fun o => f (o + 1))
        = (((List.range n).filter (fun o => decide ((1 + o) % K = 0))).map
            Nat.succ).map f := by
      rw [List.map_map]
      rfl
    rw [h1, filtered_succ_multiples K n hK, List.map_map, List.map_map]
    rfl

/-- Full characterization of `simulate!`: the initial acceleration is the
kernel applied once to the initial bodies; exactly `1 + nsteps / K`
samples are produced, the `i`-th recorded at time `(i*K)*dt` from the
state after `i*K` steps; the bodies and buffer end as the `nsteps`-fold
step iterate. -/
lemma simulate_eq (b : Fin N → Body d) (dt : ℝ) (n K : ℕ) (hK : 0 < K) :
    simulate b dt n K =
      ⟨(List.range (n / K + 1)).map (fun i : ℕ => ((i * K : ℕ) : ℝ) * dt),
       (List.range (n / K + 1)).map (fun i : ℕ =>
          total_energy (stepIter b (accelerations (fun _ _ => 0) b) dt (i * K)).1),
       (List.range (n / K + 1)).map (fun i : ℕ =>
          flatPositions (stepIter b (accelerations (fun _ _ => 0) b) dt (i * K)).1),
       stepIter b (accelerations (fun _ _ => 0) b) dt n⟩ := by
  simp only [simulate]
  rw [simAux_eq dt K n 1 (b, accelerations (fun _ _ => 0) b) 0]
  rw [SimOut.mk.injEq]
  refine ⟨?_, ?_, ?_, rfl⟩
  · have hf : ((List.range n).filter (fun o => decide ((1 + o) % K = 0))).map
        (fun o : ℕ => (0 : ℝ) + ((o : ℝ) + 1) * dt)
        = ((List.range n).filter (fun o => decide ((1 + o) % K = 0))).map
            (fun o : ℕ => (((o + 1 : ℕ) : ℝ)) * dt) := by
      refine List.map_congr_left fun o _ => ?_
      push_cast
      ring
    rw [hf]
    have h0 : (0 : ℝ) = (((0 : ℕ) : ℝ)) * dt := by simp
    rw [h0]
    exact cons_map_multiples K n hK (fun j : ℕ => ((j : ℕ) : ℝ) * dt)
  · exact cons_map_multiples K n hK
      (fun j : ℕ => total_energy (stepIter b (accelerations (fun _ _ => 0) b) dt j).1)
  · exact cons_map_multiples K n hK
      (fun j : ℕ => flatPositions (stepIter b (accelerations (fun _ _ => 0) b) dt j).1)

/-- Claim C6: the driver computes the initial accelerations once before
the loop, performs `nsteps` sequential steps, and records a sample at
`t = 0` and after every `output_every`-th step: exactly
`1 + nsteps / output_every` samples, the `i`-th at time `(i*K)*dt`, with
energy and flattened positions taken from the state after `i*K` steps. -/
theorem simulate_records (b : Fin N → Body d) (dt : ℝ) (n K : ℕ)
    (hK : 0 < K) :
    simulate b dt n K =
      ⟨(List.range (n / K + 1)).map (fun i : ℕ => ((i * K : ℕ) : ℝ) * dt),
       (List.range (n / K + 1)).map (fun i : ℕ =>
          total_energy (stepIter b (accelerations (fun _ _ => 0) b) dt (i * K)).1),
       (List.range (n / K + 1)).map (fun i : ℕ =>
          flatPositions (stepIter b (accelerations (fun _ _ => 0) b) dt (i * K)).1),
       stepIter b (accelerations (fun _ _ => 0) b) dt n⟩ :=
  simulate_eq b dt n K hK

/-- Single-body system used to instantiate the driver theorem. -/
def wBodies : Fin 1 → Body 2 := fun _ => ⟨1, fun _ => 0, fun _ => 0⟩

/-- Witness for C6 at a concrete instance: one body, `dt = 1`, zero steps,
cadence `1`. -/
theorem simulate_records_witness :
    0 < 1 ∧
    simulate wBodies 1 0 1 =
      ⟨(List.range (0 / 1 + 1)).map (fun i : ℕ => ((i * 1 : ℕ) : ℝ) * 1),
       (List.range (0 / 1 + 1)).map (fun i : ℕ =>
          total_energy (stepIter wBodies (accelerations (fun _ _ => 0) wBodies) 1 (i * 1)).1),
       (List.range (0 / 1 + 1)).map (fun i : ℕ =>
          flatPositions (stepIter wBodies (accelerations (fun _ _ => 0) wBodies) 1 (i * 1)).1),
       stepIter wBodies (accelerations (fun _ _ => 0) wBodies) 1 0⟩ :=
  ⟨by decide, simulate_records wBodies 1 0 1 (by decide)⟩

/-! ### CSV output model -/

/-- Counterexample for C9: the energy field of an `energies.csv` row is the
`e`-conversion with precision 10 (ten digits after the decimal point),
which carries 11 significant digits, not 10. -/
theorem csv_sig_digits_counterexample :
    energiesRow 0 0 = [FmtField.fixed 6 0, FmtField.sci 10 0] ∧
    FmtField.sigDigitCount (FmtField.sci 10 (0 : ℝ)) = some 11 ∧
    FmtField.sigDigitCount (FmtField.sci 10 (0 : ℝ)) ≠ some 10 := by
  refine ⟨rfl, rfl, ?_⟩
  intro h
  simp only [FmtField.sigDigitCount, Option.some.injEq] at h
  omega

/-- Claim C9 (amended): `energies.csv` has header `t,E` and one row per
recorded sample, `t` fixed-point with 6 decimals and `E` in scientific
notation with 10 digits after the decimal point (11 significant digits);
`positions.csv` has the generated `t,x1_1,...` header and one row per
sample with each component in the same scientific format. -/
theorem csv_format_amended :
    energiesFile.1 = "t,E" ∧
    positionsFile.1 = "t,x1_1,x1_2,x2_1,x2_2" ∧
    energiesFile.2.length = 1 + NSTEPS / OUTPUT_EVERY ∧
    positionsFile.2.length = 1 + NSTEPS / OUTPUT_EVERY ∧
    energiesFile.2 = (mainResult.times.zip mainResult.energies).map
        (fun p => [FmtField.fixed 6 p.1, FmtField.sci 10 p.2]) ∧
    positionsFile.2 = (mainResult.times.zip mainResult.samples).map
        (fun p => FmtField.fixed 6 p.1 :: p.2.map (FmtField.sci 10)) ∧
    (∀ (p : ℕ) (x : ℝ), FmtField.sigDigitCount (FmtField.sci p x) = some (p + 1)) := by
  have hm := simulate_eq two_body_demo DT NSTEPS OUTPUT_EVERY
    (by norm_num [OUTPUT_EVERY])
  have ht : mainResult.times.length = NSTEPS / OUTPUT_EVERY + 1 := by
    rw [show mainResult = _ from hm]
    simp
  have he : mainResult.energies.length = NSTEPS / OUTPUT_EVERY + 1 := by
    rw [show mainResult = _ from hm]
    simp
  have hs : mainResult.samples.length = NSTEPS / OUTPUT_EVERY + 1 := by
    rw [show mainResult = _ from hm]
    simp
  refine ⟨rfl, by decide, ?_, ?_, rfl, rfl, fun p x => rfl⟩
  · show ((mainResult.times.zip mainResult.energies).map
        (fun p => energiesRow p.1 p.2)).length = 1 + NSTEPS / OUTPUT_EVERY
    rw [List.length_map, List.length_zip, ht, he]
    omega
  · show ((mainResult.times.zip mainResult.samples).map
        (fun p => positionsRow p.1 p.2)).length = 1 + NSTEPS / OUTPUT_EVERY
    rw [List.length_map, List.length_zip, ht, hs]
    omega

end

end NBody
